import Mathlib

/-!
Verification of the iteration-management core of the `scrapy_ntk` repository:
`scrapy_ntk/utils/counter.py` (`Threshold`, `Counter`, `CounterWithThreshold`)
and `scrapy_ntk/utils/iter_manager.py` (`ExcludeCheck`, `Context`,
`IterManager`), embedded shallowly as pure Lean functions with explicit state
passing.  Python iterators become Lean lists consumed from the front; the
`IterManager.__iter__` generator becomes a function producing the list of
events (yields and the before-finish call) that a full consumption of the
generator would perform.
-/

namespace ScrapyNtk

/-! ## counter.py -/

/-- Model of `counter.Threshold`.  The Python constructor normalises `None`
and `0` to the stored value `0` ("no limit") and accepts positive integers;
negative or non-integer input raises, which cannot arise for `Option Nat`
input, so construction is total here. -/
structure Threshold where
  value : Nat
  deriving Repr, DecidableEq

/-- Construction `Threshold(val)` for `val : Option Nat`: `None` and `0` store `0`,
a positive `n` stores `n` (`counter.py` lines 9-21). -/
def Threshold.ofBasis (val : Option Nat) : Threshold :=
  ⟨val.getD 0⟩

/-- Model of `Threshold.__bool__` (`counter.py` lines 37-38): truthy iff the stored
value is nonzero. -/
def Threshold.toBool (t : Threshold) : Bool :=
  t.value != 0

/-- Model of `counter.CounterWithThreshold` (which inherits the fields
`_is_enabled` and `_count` from `counter.Counter`).  `_count` is an `Int`
because the disabled constructor branch stores `-1`. -/
structure CounterWithThreshold where
  is_enabled : Bool
  count : Int
  threshold : Threshold
  deriving Repr, DecidableEq

namespace CounterWithThreshold

/-- Model of `CounterWithThreshold.__init__` (`counter.py` lines 89-94): the base
constructor sets `_is_enabled = True`, `_count = 0`; then, if the threshold
is falsy (absent or zero), the counter is disabled and `_count` is set
to `-1`. -/
def make (threshold : Threshold) : CounterWithThreshold :=
  if threshold.toBool then ⟨true, 0, threshold⟩ else ⟨false, -1, threshold⟩

/-- Model of `CounterWithThreshold.__bool__` (`counter.py` lines 100-103): when
enabled, reached iff `_count >= int(_threshold)`; when disabled, `True`.
(`int(_threshold)` raises on a falsy threshold, but every counter built by
`make` that is enabled has a positive threshold, so that branch is dead.) -/
def toBool (c : CounterWithThreshold) : Bool :=
  if c.is_enabled then decide ((c.threshold.value : Int) ≤ c.count) else true

/-- Model of `Counter.add` (`counter.py` lines 54-59): when enabled, increment the
count and return `bool(self)` of the updated counter; when disabled, return
`False` and leave the state untouched. -/
def add (c : CounterWithThreshold) : Bool × CounterWithThreshold :=
  if c.is_enabled then
    let c' : CounterWithThreshold := { c with count := c.count + 1 }
    (c'.toBool, c')
  else
    (false, c)

/-- Model of `Counter.drop` (`counter.py` lines 61-63): reset the count to `0` when
enabled, no-op when disabled. -/
def drop (c : CounterWithThreshold) : CounterWithThreshold :=
  if c.is_enabled then { c with count := 0 } else c

/-- State after `k` successive `add()` calls. -/
def addTimes (c : CounterWithThreshold) : Nat → CounterWithThreshold
  | 0 => c
  | k + 1 => (addTimes c k).add.2

end CounterWithThreshold

/-- Shorthand: the counter built from an enabled threshold `t ≥ 1`. -/
def enabledCounter (t : Nat) : CounterWithThreshold :=
  CounterWithThreshold.make (Threshold.ofBasis (some t))

lemma enabledCounter_eq (t : Nat) (ht : 1 ≤ t) :
    enabledCounter t = ⟨true, 0, ⟨t⟩⟩ := by
  have hb : Threshold.toBool ⟨t⟩ = true := by
    simp [Threshold.toBool]
    omega
  unfold enabledCounter CounterWithThreshold.make Threshold.ofBasis
  simp [hb]

lemma addTimes_enabled (t : Nat) (ht : 1 ≤ t) (k : Nat) :
    (enabledCounter t).addTimes k = ⟨true, (k : Int), ⟨t⟩⟩ := by
  induction k with
  | zero => simpa [CounterWithThreshold.addTimes] using enabledCounter_eq t ht
  | succ k ih =>
      simp [CounterWithThreshold.addTimes, ih, CounterWithThreshold.add]

lemma add_enabled_result (t : Nat) (ht : 1 ≤ t) (k : Nat) :
    ((enabledCounter t).addTimes k).add.1 = decide (t ≤ k + 1) := by
  rw [addTimes_enabled t ht k]
  simp [CounterWithThreshold.add, CounterWithThreshold.toBool]
  constructor
  · intro h; exact_mod_cast h
  · intro h; exact_mod_cast h

lemma drop_enabled (t : Nat) (ht : 1 ≤ t) (j : Nat) :
    ((enabledCounter t).addTimes j).drop = enabledCounter t := by
  rw [addTimes_enabled t ht j, enabledCounter_eq t ht]
  simp [CounterWithThreshold.drop]

/-- C3: with a present threshold `t ≥ 1`, the `k`-th `add()` (1-based, so the
call made from the state after `k - 1` previous adds) returns `false` for
`k < t` and `true` for `k ≥ t`; `drop()` after any number of adds resets the
count to `0` and the same pattern restarts. -/
theorem counter_threshold_pattern (t : Nat) (ht : 1 ≤ t) :
    (∀ k : Nat, ((enabledCounter t).addTimes k).add.1 = decide (t ≤ k + 1)) ∧
    (∀ j : Nat, ((enabledCounter t).addTimes j).drop.count = 0 ∧
      ∀ k : Nat, ((((enabledCounter t).addTimes j).drop).addTimes k).add.1
        = decide (t ≤ k + 1)) := by
  refine ⟨fun k => add_enabled_result t ht k, fun j => ?_⟩
  rw [drop_enabled t ht j]
  exact ⟨by rw [enabledCounter_eq t ht], fun k => add_enabled_result t ht k⟩

/-- C3 witness at threshold `3`: second `add()` returns `false`, third
returns `true`, and after a `drop()` the third call again returns `true`. -/
theorem counter_threshold_pattern_witness :
    (((enabledCounter 3).addTimes 1).add.1 = decide (3 ≤ 1 + 1)) ∧
    (((enabledCounter 3).addTimes 2).add.1 = decide (3 ≤ 2 + 1)) ∧
    ((enabledCounter 3).addTimes 5).drop.count = 0 ∧
    (((((enabledCounter 3).addTimes 5).drop).addTimes 2).add.1
      = decide (3 ≤ 2 + 1)) := by
  obtain ⟨h1, h2⟩ := counter_threshold_pattern 3 (by decide)
  exact ⟨h1 1, h1 2, (h2 5).1, (h2 5).2 2⟩

/-- Shorthand: the counter built from an absent-or-zero threshold basis. -/
def disabledBasisCounter (b : Option Nat) : CounterWithThreshold :=
  CounterWithThreshold.make (Threshold.ofBasis b)

lemma disabled_make (b : Option Nat) (hb : b = none ∨ b = some 0) :
    disabledBasisCounter b = ⟨false, -1, ⟨0⟩⟩ := by
  rcases hb with h | h <;>
    simp [h, disabledBasisCounter, CounterWithThreshold.make,
      Threshold.ofBasis, Threshold.toBool]

lemma addTimes_disabled (c : CounterWithThreshold) (hc : c.is_enabled = false)
    (k : Nat) : c.addTimes k = c := by
  induction k with
  | zero => rfl
  | succ k ih => simp [CounterWithThreshold.addTimes, ih,
      CounterWithThreshold.add, hc]

/-- C8: a counter built from an absent (`None`) or zero threshold returns
`false` from every one of any number of successive `add()` calls, and its
stored count is never advanced by them (it stays at the `-1` the constructor
stored: counting does not occur at all). -/
theorem disabled_counter_add (b : Option Nat) (hb : b = none ∨ b = some 0) :
    ∀ k : Nat,
      ((disabledBasisCounter b).addTimes k).add.1 = false ∧
      ((disabledBasisCounter b).addTimes k).count = (disabledBasisCounter b).count := by
  intro k
  have hd : (disabledBasisCounter b).is_enabled = false := by
    rw [disabled_make b hb]
  rw [addTimes_disabled _ hd k]
  exact ⟨by simp [CounterWithThreshold.add, hd], rfl⟩

/-- C8 witness: the counter built from an absent threshold still reports
`false` on its 6th `add()`, with the count unmoved. -/
theorem disabled_counter_add_witness :
    ((disabledBasisCounter none).addTimes 5).add.1 = false ∧
    ((disabledBasisCounter none).addTimes 5).count = (disabledBasisCounter none).count :=
  disabled_counter_add none (Or.inl rfl) 5

/-- C9: a counter built from an absent or zero threshold evaluates as truthy
(`__bool__` returns `True`) in every state reachable by `add()` calls, even
though every one of those `add()` calls returns `false`: direct boolean
testing and the value returned by `add()` disagree for disabled counters. -/
theorem disabled_counter_truthy (b : Option Nat) (hb : b = none ∨ b = some 0) :
    ∀ k : Nat,
      ((disabledBasisCounter b).addTimes k).toBool = true ∧
      ((disabledBasisCounter b).addTimes k).add.1 = false := by
  intro k
  have hd : (disabledBasisCounter b).is_enabled = false := by
    rw [disabled_make b hb]
  rw [addTimes_disabled _ hd k]
  exact ⟨by simp [CounterWithThreshold.toBool, hd],
    by simp [CounterWithThreshold.add, hd]⟩

/-- C9 witness: the counter built from a zero threshold is truthy after
4 adds while that 5th `add()` still returns `false`. -/
theorem disabled_counter_truthy_witness :
    ((disabledBasisCounter (some 0)).addTimes 4).toBool = true ∧
    ((disabledBasisCounter (some 0)).addTimes 4).add.1 = false :=
  disabled_counter_truthy (some 0) (Or.inr rfl) 4

/-! ## iter_manager.py: ExcludeCheck -/

/-- Model of `iter_manager.ExcludeCheck`.  The wrapped Python iterator is the
list `rest` of its not-yet-produced elements; `value` is the prefetched
pending exclude key (`_value`), `is_completed` the `_is_completed` flag, and
`default` the sentinel stored at construction. -/
structure ExcludeCheck (α : Type) where
  value : α
  is_completed : Bool
  rest : List α
  default : α
  deriving Repr, DecidableEq

namespace ExcludeCheck

/-- Model of `ExcludeCheck._yield_next` (`iter_manager.py` lines 19-26): pull the next
element from the iterator into `_value`; on exhaustion store the default and
set `_is_completed`. -/
def yield_next {α : Type} (c : ExcludeCheck α) : ExcludeCheck α :=
  match c.rest with
  | [] => { c with value := c.default, is_completed := true }
  | x :: xs => { c with value := x, rest := xs }

/-- Model of `ExcludeCheck.__init__` (`iter_manager.py` lines 12-17): store the
iterator and default, clear the completed flag, then prefetch via
`_yield_next` (the pre-prefetch `_value` slot is initialised with the
default; it is immediately overwritten or re-set by `_yield_next`). -/
def make {α : Type} (iterator : List α) (default : α) : ExcludeCheck α :=
  yield_next { value := default, is_completed := false, rest := iterator,
               default := default }

/-- Model of `ExcludeCheck.check_next` (`iter_manager.py` lines 28-34): `False` when
completed; on a match with the pending value, advance and return `True`;
otherwise `False`. -/
def check_next {α : Type} [DecidableEq α] (c : ExcludeCheck α) (value : α) :
    Bool × ExcludeCheck α :=
  if c.is_completed then (false, c)
  else if value = c.value then (true, c.yield_next)
  else (false, c)

end ExcludeCheck

/-- C5: on a not-yet-completed cursor, `check_next key` returns `true` iff
`key` equals the pending value; a match advances the pending value to the
next exclude-sequence element, or marks the cursor completed when the
sequence is exhausted; a completed cursor answers `false` on every input,
including its own sentinel default. -/
theorem exclude_cursor_test (c : ExcludeCheck Nat) (k : Nat) :
    (c.is_completed = false →
      ((c.check_next k).1 = true ↔ k = c.value) ∧
      (k = c.value →
        (c.rest = [] → (c.check_next k).2.is_completed = true) ∧
        (∀ x xs, c.rest = x :: xs →
          (c.check_next k).2.is_completed = false ∧
          (c.check_next k).2.value = x ∧ (c.check_next k).2.rest = xs))) ∧
    (c.is_completed = true →
      (c.check_next k).1 = false ∧ (c.check_next c.default).1 = false) := by
  constructor
  · intro hnc
    constructor
    · by_cases hk : k = c.value <;> simp [ExcludeCheck.check_next, hnc, hk]
    · intro hk
      constructor
      · intro hr
        simp [ExcludeCheck.check_next, hnc, hk, ExcludeCheck.yield_next, hr]
      · intro x xs hr
        simp [ExcludeCheck.check_next, hnc, hk, ExcludeCheck.yield_next, hr]
  · intro hc
    constructor <;> simp [ExcludeCheck.check_next, hc]

/-- C5 witness on the cursor holding pending key `7` with remainder `[5]`:
`check_next 3` answers `false`, `check_next 7` answers `true` and advances
the pending key to `5`; the completed cursor answers `false` even on its
default. -/
theorem exclude_cursor_test_witness :
    (((⟨7, false, [5], 0⟩ : ExcludeCheck Nat).check_next 3).1 = false) ∧
    (((⟨7, false, [5], 0⟩ : ExcludeCheck Nat).check_next 7).1 = true) ∧
    (((⟨7, false, [5], 0⟩ : ExcludeCheck Nat).check_next 7).2.value = 5) ∧
    (((⟨0, true, [], 0⟩ : ExcludeCheck Nat).check_next 0).1 = false) := by
  have h1 := (exclude_cursor_test (⟨7, false, [5], 0⟩ : ExcludeCheck Nat) 3).1 rfl
  have h2 := (exclude_cursor_test (⟨7, false, [5], 0⟩ : ExcludeCheck Nat) 7).1 rfl
  have h3 := (exclude_cursor_test (⟨0, true, [], 0⟩ : ExcludeCheck Nat) 0).2 rfl
  refine ⟨?_, ?_, ?_, h3.1⟩
  · by_contra hne
    have := (h1.1).mp (by revert hne; decide)
    exact absurd this (by decide)
  · exact (h2.1).mpr rfl
  · exact ((h2.2 rfl).2 5 [] rfl).2.1

/-! ## iter_manager.py: Context (auxiliary-field dictionary) -/

/-- Python-dict update on an association list: replace in place when the key
is present (dict assignment keeps insertion order), append otherwise. -/
def dictSet {A : Type} (d : List (String × A)) (k : String) (v : A) :
    List (String × A) :=
  if d.any (fun p => p.1 == k) then
    d.map (fun p => if p.1 == k then (k, v) else p)
  else
    d ++ [(k, v)]

/-- Python-dict lookup on an association list: first (and, with unique keys,
only) binding of the key. -/
def dictGet {A : Type} : List (String × A) → String → Option A
  | [], _ => none
  | p :: ps, k => if p.1 == k then some p.2 else dictGet ps k

/-- Model of `iter_manager.Context`'s backing `_dict` for the auxiliary-field
protocol (`__setitem__`/`__getitem__`).  The Python dict is heterogeneous;
for the get/set claims a single value type `A` suffices because the locked
keys are rejected before any value is touched. -/
structure Context (A : Type) where
  dict : List (String × A)
  deriving Repr, DecidableEq

namespace Context

def CLOSE_REASON : String := "close_reason"
def VALUE : String := "value"
def EXCLUDE_VALUE : String := "exclude_value"

/-- Model of `Context._lock_keys` (`iter_manager.py` line 46). -/
def lock_keys : List String := [CLOSE_REASON, VALUE, EXCLUDE_VALUE]

/-- Model of `Context.__init__` (`iter_manager.py` lines 51-57): the dict starts with
the value and exclude value under the two reserved data keys. -/
def make {A : Type} (value exclude_value : A) : Context A :=
  ⟨[(VALUE, value), (EXCLUDE_VALUE, exclude_value)]⟩

/-- Model of `Context.__setitem__` (`iter_manager.py` lines 94-98): assign when the
key is not locked, raise `KeyError` otherwise. -/
def setItem {A : Type} (c : Context A) (key : String) (value : A) :
    Except String (Context A) :=
  if !(lock_keys.contains key) then
    Except.ok ⟨dictSet c.dict key value⟩
  else
    Except.error (key ++ " key can not be assigned in this way.")

/-- Model of `Context.__getitem__` (`iter_manager.py` lines 91-92); a missing key
raises `KeyError` in Python, modelled as `none`. -/
def getItem {A : Type} (c : Context A) (key : String) : Option A :=
  dictGet c.dict key

end Context

lemma dictGet_replace {A : Type} (k : String) (v : A) :
    ∀ d : List (String × A), (d.any fun p => p.1 == k) = true →
      dictGet (d.map fun p => if p.1 == k then (k, v) else p) k = some v := by
  intro d
  induction d with
  | nil => intro h; simp at h
  | cons p ps ih =>
      intro h
      by_cases hp : (p.1 == k) = true
      · simp [dictGet, hp]
      · have hps : (ps.any fun q => q.1 == k) = true := by
          rw [List.any_cons] at h
          simpa [hp] using h
        simpa [dictGet, hp] using ih hps

lemma dictGet_append {A : Type} (k : String) (v : A) :
    ∀ d : List (String × A), (d.any fun p => p.1 == k) = false →
      dictGet (d ++ [(k, v)]) k = some v := by
  intro d
  induction d with
  | nil => intro _; simp [dictGet]
  | cons p ps ih =>
      intro h
      rw [List.any_cons, Bool.or_eq_false_iff] at h
      simp [dictGet, h.1, ih h.2]

lemma dictGet_dictSet {A : Type} (d : List (String × A)) (k : String) (v : A) :
    dictGet (dictSet d k v) k = some v := by
  unfold dictSet
  by_cases h : (d.any fun p => p.1 == k) = true
  · rw [if_pos h]
    exact dictGet_replace k v d h
  · rw [if_neg h]
    exact dictGet_append k v d (Bool.eq_false_iff.mpr h)

/-- C2 counterexample: `"close_reason"` differs from both keys the claim
names as the only reserved ones, yet writing it raises the reserved-key
error, so "every string key other than `value`/`exclude_value` can be set"
is false. -/
theorem context_two_reserved_keys_counterexample :
    ("close_reason" ≠ "value" ∧ "close_reason" ≠ "exclude_value") ∧
    (Context.make (0 : Nat) 0).setItem "close_reason" 1
      = Except.error "close_reason key can not be assigned in this way." := by
  refine ⟨⟨by decide, by decide⟩, ?_⟩
  rfl

/-- C2 amended: auxiliary writes succeed, and are then readable, under every
string key outside the three locked keys `close_reason`, `value`,
`exclude_value`; a write under any of the three locked keys fails with the
reserved-key `KeyError`. -/
theorem context_reserved_keys (c : Context Nat) (key : String) (v : Nat) :
    (Context.lock_keys.contains key = false →
      c.setItem key v = Except.ok ⟨dictSet c.dict key v⟩ ∧
      ∀ c', c.setItem key v = Except.ok c' → c'.getItem key = some v) ∧
    (Context.lock_keys.contains key = true →
      c.setItem key v
        = Except.error (key ++ " key can not be assigned in this way.")) := by
  constructor
  · intro hk
    have hset : c.setItem key v = Except.ok ⟨dictSet c.dict key v⟩ := by
      unfold Context.setItem
      rw [hk]
      rfl
    refine ⟨hset, ?_⟩
    intro c' hc'
    rw [hset] at hc'
    cases hc'
    exact dictGet_dictSet c.dict key v
  · intro hk
    unfold Context.setItem
    rw [hk]
    rfl

/-- C2 amended witness: on a fresh context, the key `"note"` is writable and
readable back, and the locked key `"value"` is rejected. -/
theorem context_reserved_keys_witness :
    ((Context.make (0 : Nat) 0).setItem "note" 7
        = Except.ok ⟨dictSet (Context.make (0 : Nat) 0).dict "note" 7⟩) ∧
    ((Context.make (0 : Nat) 0).setItem "value" 7
        = Except.error "value key can not be assigned in this way.") := by
  have h1 := (context_reserved_keys (Context.make (0 : Nat) 0) "note" 7).1
    (by decide)
  have h2 := (context_reserved_keys (Context.make (0 : Nat) 0) "value" 7).2
    (by decide)
  exact ⟨h1.1, h2⟩

/-! ## iter_manager.py: IterManager

The iteration context as used by `IterManager` itself: the raw value, the
derived exclusion key (`Nat` in this development, matching the numeric job
keys of the reference use case), and the close-reason list kept under the
locked `close_reason` dict key.  Auxiliary fields are irrelevant to the
manager loop and are modelled separately by `Context` above. -/
structure CtxR (V : Type) where
  value : V
  exclude_value : Nat
  close_reasons : List String
  deriving Repr, DecidableEq

namespace CtxR

/-- Model of `Context.close_reason` (`iter_manager.py` lines 74-82): the last close
reason, or `None` when none was set. -/
def close_reason {V : Type} (ctx : CtxR V) : Option String :=
  ctx.close_reasons.getLast?

/-- Truthiness of `Context.close_reason` as used by the `if` statements in
the source: `None` and the empty string are falsy. -/
def close_reason_truthy {V : Type} (ctx : CtxR V) : Bool :=
  match ctx.close_reasons.getLast? with
  | none => false
  | some s => s != ""

/-- Model of `Context.set_close_reason` (`iter_manager.py` lines 59-64): append when a
truthy reason is already present, otherwise start a fresh singleton list. -/
def set_close_reason {V : Type} (ctx : CtxR V) (message : String) : CtxR V :=
  if ctx.close_reason_truthy then
    { ctx with close_reasons := ctx.close_reasons ++ [message] }
  else
    { ctx with close_reasons := [message] }

end CtxR

/-- Observable events of one full consumption of the `IterManager.__iter__`
generator: each `yield` and the single `before_finish` call (which carries
the stopping context's close-reason list). -/
inductive IMEvent (V : Type) where
  | yielded : V → IMEvent V
  | beforeFinish : List String → IMEvent V
  deriving Repr, DecidableEq

/-- The `IterManager.__init__` configuration (`iter_manager.py` lines
106-181) restricted to what the loop consumes.  `StronglyTypedFunc` wrappers
only enforce input/output types before delegating to the wrapped callable,
so the stages are modelled as plain (hence well-typed) Lean functions; the
defaults of the source are `context_processor = fun v => Context(v, v)`,
`case_processors = []` and `return_value_processor = fun ctx => ctx.value`. -/
structure IMConfig (V : Type) where
  exclude_iterator : List Nat
  exclude_default : Nat
  max_iterations : Option Nat
  max_exclude_matches : Option Nat
  max_total_excluded : Option Nat
  max_returned_values : Option Nat
  context_processor : V → CtxR V
  case_processors : List (CtxR V → Bool)
  return_value_processor : CtxR V → V

/-- The mutable state owned by one `IterManager`: the exclude checker and the
four counters (`iter_manager.py` lines 130-151). -/
structure IMState where
  exclude_checker : ExcludeCheck Nat
  total_iterations_counter : CounterWithThreshold
  exclude_matches_counter : CounterWithThreshold
  total_excluded_counter : CounterWithThreshold
  total_returned_counter : CounterWithThreshold
  deriving Repr, DecidableEq

/-- Initial `IMState` built by `IterManager.__init__`. -/
def IMState.make {V : Type} (cfg : IMConfig V) : IMState :=
  { exclude_checker := ExcludeCheck.make cfg.exclude_iterator cfg.exclude_default
    total_iterations_counter :=
      CounterWithThreshold.make (Threshold.ofBasis cfg.max_iterations)
    exclude_matches_counter :=
      CounterWithThreshold.make (Threshold.ofBasis cfg.max_exclude_matches)
    total_excluded_counter :=
      CounterWithThreshold.make (Threshold.ofBasis cfg.max_total_excluded)
    total_returned_counter :=
      CounterWithThreshold.make (Threshold.ofBasis cfg.max_returned_values) }

namespace IterManager

/-- Model of `IterManager._chain_case_processors` (`iter_manager.py` lines 183-193):
`True` iff some case processor returns `True` (short-circuiting, like the
source's loop). -/
def chain_case_processors {V : Type} (cfg : IMConfig V) (context : CtxR V) :
    Bool :=
  cfg.case_processors.any fun processor => processor context

/-- Model of `IterManager._check_exclude` (`iter_manager.py` lines 195-209).  Returns
(`True` iff the value must be yielded, updated state, updated context). -/
def check_exclude {V : Type} (st : IMState) (context : CtxR V) :
    Bool × IMState × CtxR V :=
  let checked := st.exclude_checker.check_next context.exclude_value
  if checked.1 then
    let m := st.exclude_matches_counter.add
    let context1 :=
      if m.1 then context.set_close_reason "Exclude matches threshold reached."
      else context
    let e := st.total_excluded_counter.add
    let context2 :=
      if e.1 then context1.set_close_reason "Total excluded threshold reached."
      else context1
    (false,
     { st with exclude_checker := checked.2, exclude_matches_counter := m.2,
               total_excluded_counter := e.2 },
     context2)
  else
    (true,
     { st with exclude_checker := checked.2,
               exclude_matches_counter := st.exclude_matches_counter.drop },
     context)

/-- Model of `IterManager._return` (`iter_manager.py` lines 211-219): bump the
returned-values counter (latching its close reason) and project the context
through the return-value processor. -/
def return_value {V : Type} (cfg : IMConfig V) (st : IMState)
    (context : CtxR V) : V × IMState × CtxR V :=
  let r := st.total_returned_counter.add
  let context1 :=
    if r.1 then context.set_close_reason "Returned values threshold reached."
    else context
  (cfg.return_value_processor context1,
   { st with total_returned_counter := r.2 }, context1)

/-- The tail of one loop body of `IterManager.__iter__` (`iter_manager.py`
lines 228-232), after the exclusion test and the optional yield: bump the
total-iterations counter, latch its close reason, and `break` (invoking
`before_finish`) when the context carries a truthy close reason. -/
def finish_step {V : Type} (evts : List (IMEvent V)) (st2 : IMState)
    (ctx2 : CtxR V) : List (IMEvent V) × IMState × Bool :=
  let t := st2.total_iterations_counter.add
  let context3 :=
    if t.1 then ctx2.set_close_reason "Iterations count threshold reached."
    else ctx2
  let st3 := { st2 with total_iterations_counter := t.2 }
  if context3.close_reason_truthy then
    (evts ++ [IMEvent.beforeFinish context3.close_reasons], st3, true)
  else
    (evts, st3, false)

/-- One loop body of `IterManager.__iter__` (`iter_manager.py` lines
221-232) for one element of the general iterator: the events this element
produces, the state afterwards, and whether the loop `break`s here. -/
def processElement {V : Type} (cfg : IMConfig V) (st : IMState) (value : V) :
    List (IMEvent V) × IMState × Bool :=
  let context := cfg.context_processor value
  if chain_case_processors cfg context then
    ([], st, false)
  else
    let c := check_exclude st context
    if c.1 then
      let r := return_value cfg c.2.1 c.2.2
      finish_step [IMEvent.yielded r.1] r.2.1 r.2.2
    else
      finish_step [] c.2.1 c.2.2

/-- Full consumption of `IterManager.__iter__`: the event trace and the
number of elements pulled from the general iterator. -/
def run {V : Type} (cfg : IMConfig V) : IMState → List V →
    List (IMEvent V) × Nat
  | _, [] => ([], 0)
  | st, value :: rest =>
    let p := processElement cfg st value
    if p.2.2 then
      (p.1, 1)
    else
      let r := run cfg p.2.1 rest
      (p.1 ++ r.1, r.2 + 1)

end IterManager

/-- The values a consumer receives from an event trace. -/
def outputsOf {V : Type} (trace : List (IMEvent V)) : List V :=
  trace.filterMap fun e =>
    match e with
    | IMEvent.yielded v => some v
    | IMEvent.beforeFinish _ => none

/-- The events the generator executes when the consumer pulls exactly `k`
values and then abandons the sequence: the generator suspends at the `k`-th
`yield`, so nothing after that yield runs.  When fewer than `k` yields
exist, the generator runs to completion and the whole trace is executed. -/
def pulled {V : Type} : Nat → List (IMEvent V) → List (IMEvent V)
  | 0, _ => []
  | _ + 1, [] => []
  | k + 1, IMEvent.yielded v :: trace => IMEvent.yielded v :: pulled k trace
  | k + 1, IMEvent.beforeFinish r :: trace =>
      IMEvent.beforeFinish r :: pulled (k + 1) trace

/-! ## C4: consecutive versus total exclusion counters -/

/-- The configuration of claim C4: `max_exclude_matches = 2`,
`max_total_excluded = 10`, no other thresholds, no case predicates, default
context processor and projector, exclude sequence `E`. -/
def cfgC4 (E : List Nat) : IMConfig Nat :=
  { exclude_iterator := E, exclude_default := 0,
    max_iterations := none, max_exclude_matches := some 2,
    max_total_excluded := some 10, max_returned_values := none,
    context_processor := fun v => ⟨v, v, []⟩,
    case_processors := [],
    return_value_processor := fun ctx => ctx.value }

/-- C4: with `max_exclude_matches = 2` and `max_total_excluded = 10`:
a run whose first two primary elements are both excluded stops at the second
of them (2 of the 4 available elements consumed, nothing yielded) with the
consecutive-exclude-matches close reason; a run whose ten exclusions are
each separated by a non-excluded element is never stopped by the
consecutive-match threshold and stops at the 10th excluded element (element
19 of the 20 supplied) with the total-excluded close reason. -/
theorem consecutive_vs_total_thresholds :
    (IterManager.run (cfgC4 [10, 9]) (IMState.make (cfgC4 [10, 9])) [10, 9, 8, 7]
      = ([IMEvent.beforeFinish ["Exclude matches threshold reached."]], 2)) ∧
    (IterManager.run (cfgC4 [20, 19, 18, 17, 16, 15, 14, 13, 12, 11])
        (IMState.make (cfgC4 [20, 19, 18, 17, 16, 15, 14, 13, 12, 11]))
        [20, 120, 19, 119, 18, 118, 17, 117, 16, 116,
         15, 115, 14, 114, 13, 113, 12, 112, 11, 111]
      = ([IMEvent.yielded 120, IMEvent.yielded 119, IMEvent.yielded 118,
          IMEvent.yielded 117, IMEvent.yielded 116, IMEvent.yielded 115,
          IMEvent.yielded 114, IMEvent.yielded 113, IMEvent.yielded 112,
          IMEvent.beforeFinish ["Total excluded threshold reached."]], 19)) := by
  exact ⟨rfl, rfl⟩

/-! ## C6: case predicates suppress exclusion bookkeeping -/

/-- C6: when some case processor accepts the element's context, the loop body
yields nothing and leaves the exclude cursor (pending key and completed
flag) and the consecutive- and total-exclusion counters untouched — whatever
the element's derived key is, including one equal to the pending exclude
key. -/
theorem case_drop_suppresses_bookkeeping {V : Type} (cfg : IMConfig V)
    (st : IMState) (value : V)
    (h : IterManager.chain_case_processors cfg (cfg.context_processor value)
      = true) :
    outputsOf (IterManager.processElement cfg st value).1 = [] ∧
    (IterManager.processElement cfg st value).2.1.exclude_checker.value
      = st.exclude_checker.value ∧
    (IterManager.processElement cfg st value).2.1.exclude_checker.is_completed
      = st.exclude_checker.is_completed ∧
    (IterManager.processElement cfg st value).2.1.exclude_matches_counter
      = st.exclude_matches_counter ∧
    (IterManager.processElement cfg st value).2.1.total_excluded_counter
      = st.total_excluded_counter := by
  have hp : IterManager.processElement cfg st value = ([], st, false) := by
    simp [IterManager.processElement, h]
  rw [hp]
  exact ⟨rfl, rfl, rfl, rfl, rfl⟩

/-- The C6 witness configuration: one case predicate that accepts every
context, an exclude sequence whose pending key `5` equals the witness
element's derived key. -/
def cfgC6 : IMConfig Nat :=
  { exclude_iterator := [5, 3], exclude_default := 0,
    max_iterations := none, max_exclude_matches := some 2,
    max_total_excluded := some 10, max_returned_values := none,
    context_processor := fun v => ⟨v, v, []⟩,
    case_processors := [fun _ => true],
    return_value_processor := fun ctx => ctx.value }

/-- C6 witness: element `5` (whose key equals the pending exclude key `5`)
is case-dropped, and the cursor and both exclusion counters survive
unchanged, with nothing yielded. -/
theorem case_drop_suppresses_bookkeeping_witness :
    outputsOf (IterManager.processElement cfgC6 (IMState.make cfgC6) 5).1 = [] ∧
    (IterManager.processElement cfgC6 (IMState.make cfgC6) 5).2.1.exclude_checker.value
      = (IMState.make cfgC6).exclude_checker.value ∧
    (IterManager.processElement cfgC6 (IMState.make cfgC6) 5).2.1.exclude_checker.is_completed
      = (IMState.make cfgC6).exclude_checker.is_completed ∧
    (IterManager.processElement cfgC6 (IMState.make cfgC6) 5).2.1.exclude_matches_counter
      = (IMState.make cfgC6).exclude_matches_counter ∧
    (IterManager.processElement cfgC6 (IMState.make cfgC6) 5).2.1.total_excluded_counter
      = (IMState.make cfgC6).total_excluded_counter :=
  case_drop_suppresses_bookkeeping cfgC6 (IMState.make cfgC6) 5 rfl

/-! ## C10: case-dropped elements do not count toward max_iterations -/

/-- The counter built from an absent threshold, as stored for every
unconfigured limit. -/
def disCounter : CounterWithThreshold := ⟨false, -1, ⟨0⟩⟩

/-- Configuration exercising C10: iteration limit `N`, no other thresholds,
no exclude sequence, and one case predicate dropping the (marker) value
`0`. -/
def cfgC10 (N : Nat) : IMConfig Nat :=
  { exclude_iterator := [], exclude_default := 0,
    max_iterations := some N, max_exclude_matches := none,
    max_total_excluded := none, max_returned_values := none,
    context_processor := fun v => ⟨v, v, []⟩,
    case_processors := [fun ctx => ctx.value == 0],
    return_value_processor := fun ctx => ctx.value }

/-- The reachable states of a `cfgC10 N` run: exclude cursor exhausted,
iteration counter at `c`, every other counter disabled. -/
def stC10 (N c : Nat) : IMState :=
  ⟨⟨0, true, [], 0⟩, ⟨true, (c : Int), ⟨N⟩⟩, disCounter, disCounter, disCounter⟩

lemma make_cfgC10 (N : Nat) (hN : 1 ≤ N) :
    IMState.make (cfgC10 N) = stC10 N 0 := by
  have hb : Threshold.toBool ⟨N⟩ = true := by
    simp [Threshold.toBool]
    omega
  unfold IMState.make cfgC10 stC10 disCounter
  simp [ExcludeCheck.make, ExcludeCheck.yield_next, CounterWithThreshold.make,
    Threshold.ofBasis, hb, Threshold.toBool]
  omega

lemma processElement_c10_stop (N c : Nat) (h : N ≤ c + 1) :
    IterManager.processElement (cfgC10 N) (stC10 N c) 1
      = ([IMEvent.yielded 1,
          IMEvent.beforeFinish ["Iterations count threshold reached."]],
         ⟨⟨0, true, [], 0⟩, ⟨true, (c : Int) + 1, ⟨N⟩⟩,
          disCounter, disCounter, disCounter⟩, true) := by
  have hd : decide ((((⟨N⟩ : Threshold).value : Int)) ≤ (c : Int) + 1) = true := by
    simp only [decide_eq_true_eq]
    omega
  simp [IterManager.processElement, IterManager.finish_step, cfgC10, stC10,
    IterManager.chain_case_processors, IterManager.check_exclude,
    ExcludeCheck.check_next, IterManager.return_value,
    CounterWithThreshold.add, CounterWithThreshold.drop,
    CounterWithThreshold.toBool, CtxR.set_close_reason,
    CtxR.close_reason_truthy, disCounter, hd]

lemma processElement_c10_go (N c : Nat) (h : ¬ N ≤ c + 1) :
    IterManager.processElement (cfgC10 N) (stC10 N c) 1
      = ([IMEvent.yielded 1], stC10 N (c + 1), false) := by
  have hd : decide ((((⟨N⟩ : Threshold).value : Int)) ≤ (c : Int) + 1) = false := by
    simp only [decide_eq_false_iff_not]
    omega
  simp [IterManager.processElement, IterManager.finish_step, cfgC10, stC10,
    IterManager.chain_case_processors, IterManager.check_exclude,
    ExcludeCheck.check_next, IterManager.return_value,
    CounterWithThreshold.add, CounterWithThreshold.drop,
    CounterWithThreshold.toBool, CtxR.set_close_reason,
    CtxR.close_reason_truthy, disCounter, hd]

lemma run_c10_replicate (N : Nat) :
    ∀ m c : Nat, c < N → N ≤ c + m →
      (IterManager.run (cfgC10 N) (stC10 N c) (List.replicate m 1)).2 = N - c := by
  intro m
  induction m with
  | zero => intro c h1 h2; omega
  | succ m ih =>
      intro c h1 h2
      rw [List.replicate_succ]
      by_cases h : N ≤ c + 1
      · rw [show (IterManager.run (cfgC10 N) (stC10 N c) (1 :: List.replicate m 1))
            = ((IterManager.processElement (cfgC10 N) (stC10 N c) 1).1, 1) from by
            rw [IterManager.run]
            simp [processElement_c10_stop N c h]]
        simp
        omega
      · rw [show (IterManager.run (cfgC10 N) (stC10 N c) (1 :: List.replicate m 1)).2
            = (IterManager.run (cfgC10 N) (stC10 N (c + 1)) (List.replicate m 1)).2 + 1 from by
            rw [IterManager.run]
            simp [processElement_c10_go N c h]]
        rw [ih (c + 1) (by omega) (by omega)]
        omega

/-- C10: an element dropped by a case predicate never advances the
total-iterations counter (for any configuration, state and element); as a
consequence, for every present iteration limit `N ≥ 1`, the run over one
case-dropped element followed by `N` ordinary elements pulls `N + 1`
elements from the primary sequence — strictly more than `N`. -/
theorem case_drop_not_counted :
    (∀ (V : Type) (cfg : IMConfig V) (st : IMState) (value : V),
      IterManager.chain_case_processors cfg (cfg.context_processor value) = true →
      (IterManager.processElement cfg st value).2.1.total_iterations_counter
        = st.total_iterations_counter) ∧
    (∀ N : Nat, 1 ≤ N →
      (IterManager.run (cfgC10 N) (IMState.make (cfgC10 N))
        (0 :: List.replicate N 1)).2 = N + 1 ∧
      N < (IterManager.run (cfgC10 N) (IMState.make (cfgC10 N))
        (0 :: List.replicate N 1)).2) := by
  constructor
  · intro V cfg st value h
    have hp : IterManager.processElement cfg st value = ([], st, false) := by
      simp [IterManager.processElement, h]
    rw [hp]
  · intro N hN
    have h0 : IterManager.processElement (cfgC10 N) (stC10 N 0) 0
        = ([], stC10 N 0, false) := by
      simp [IterManager.processElement, cfgC10, IterManager.chain_case_processors]
    have hrun : (IterManager.run (cfgC10 N) (IMState.make (cfgC10 N))
        (0 :: List.replicate N 1)).2 = N + 1 := by
      rw [make_cfgC10 N hN, IterManager.run]
      simp [h0]
      rw [run_c10_replicate N N 0 (by omega) (by omega)]
      omega
    exact ⟨hrun, by omega⟩

/-- C10 witness with `N = 3`: the case-dropped marker element leaves the
iteration counter alone, and the pass pulls 4 primary elements. -/
theorem case_drop_not_counted_witness :
    ((IterManager.processElement (cfgC10 3) (IMState.make (cfgC10 3)) 0).2.1.total_iterations_counter
      = (IMState.make (cfgC10 3)).total_iterations_counter) ∧
    (IterManager.run (cfgC10 3) (IMState.make (cfgC10 3))
      (0 :: List.replicate 3 1)).2 = 3 + 1 := by
  obtain ⟨h1, h2⟩ := case_drop_not_counted
  exact ⟨h1 Nat (cfgC10 3) (IMState.make (cfgC10 3)) 0 rfl, (h2 3 (by decide)).1⟩

/-! ## C7: abandonment never runs the before-finish hook -/

/-- The four close-reason messages the loop can latch, one per counter. -/
def thresholdMessages : List String :=
  ["Exclude matches threshold reached.", "Total excluded threshold reached.",
   "Returned values threshold reached.", "Iterations count threshold reached."]

/-- A trace fragment consisting of yields only. -/
def yieldsOnly {V : Type} (trace : List (IMEvent V)) : Prop :=
  ∀ e ∈ trace, ∃ w, e = IMEvent.yielded w

lemma set_close_reason_subset {V : Type} (ctx : CtxR V) (msg : String)
    (hmsg : msg ∈ thresholdMessages)
    (hctx : ∀ m ∈ ctx.close_reasons, m ∈ thresholdMessages) :
    ∀ m ∈ (ctx.set_close_reason msg).close_reasons, m ∈ thresholdMessages := by
  intro m hm
  unfold CtxR.set_close_reason at hm
  by_cases h : ctx.close_reason_truthy = true
  · simp only [h, if_pos] at hm
    rcases List.mem_append.mp hm with hm | hm
    · exact hctx m hm
    · rw [List.mem_singleton.mp hm]
      exact hmsg
  · rw [if_neg h] at hm
    rw [List.mem_singleton.mp hm]
    exact hmsg

lemma truthy_ne_nil {V : Type} (ctx : CtxR V)
    (h : ctx.close_reason_truthy = true) : ctx.close_reasons ≠ [] := by
  intro hnil
  rw [CtxR.close_reason_truthy, hnil] at h
  simp at h

lemma check_exclude_reasons {V : Type} (st : IMState) (ctx : CtxR V)
    (hctx : ∀ m ∈ ctx.close_reasons, m ∈ thresholdMessages) :
    ∀ m ∈ (IterManager.check_exclude st ctx).2.2.close_reasons,
      m ∈ thresholdMessages := by
  unfold IterManager.check_exclude
  by_cases hch : (st.exclude_checker.check_next ctx.exclude_value).1 = true
  · simp only [hch, if_pos]
    by_cases hm : st.exclude_matches_counter.add.1 = true <;>
      by_cases he : st.total_excluded_counter.add.1 = true <;>
        simp only [hm, he, if_pos, if_neg, Bool.false_eq_true,
          not_false_eq_true] <;>
        first
        | exact set_close_reason_subset _ _ (by decide)
            (set_close_reason_subset _ _ (by decide) hctx)
        | exact set_close_reason_subset _ _ (by decide) hctx
        | exact hctx
  · rw [if_neg hch]
    exact hctx

lemma return_value_reasons {V : Type} (cfg : IMConfig V) (st : IMState)
    (ctx : CtxR V)
    (hctx : ∀ m ∈ ctx.close_reasons, m ∈ thresholdMessages) :
    ∀ m ∈ (IterManager.return_value cfg st ctx).2.2.close_reasons,
      m ∈ thresholdMessages := by
  unfold IterManager.return_value
  by_cases hr : st.total_returned_counter.add.1 = true
  · simp only [hr, if_pos]
    exact set_close_reason_subset _ _ (by decide) hctx
  · simp only [hr, Bool.false_eq_true, not_false_eq_true, if_neg]
    exact hctx

lemma finish_step_classify {V : Type} (evts : List (IMEvent V))
    (st2 : IMState) (ctx2 : CtxR V) (hev : yieldsOnly evts)
    (hctx : ∀ m ∈ ctx2.close_reasons, m ∈ thresholdMessages) :
    ((IterManager.finish_step evts st2 ctx2).2.2 = false ∧
      yieldsOnly (IterManager.finish_step evts st2 ctx2).1) ∨
    ((IterManager.finish_step evts st2 ctx2).2.2 = true ∧
      ∃ ys rs, (IterManager.finish_step evts st2 ctx2).1
          = ys ++ [IMEvent.beforeFinish rs] ∧ yieldsOnly ys ∧ rs ≠ [] ∧
        ∀ m ∈ rs, m ∈ thresholdMessages) := by
  unfold IterManager.finish_step
  set ctx3 := (if st2.total_iterations_counter.add.1 = true then
      ctx2.set_close_reason "Iterations count threshold reached."
    else ctx2) with hctx3def
  have hctx3 : ∀ m ∈ ctx3.close_reasons, m ∈ thresholdMessages := by
    rw [hctx3def]
    by_cases ht : st2.total_iterations_counter.add.1 = true
    · simp only [ht, if_pos]
      exact set_close_reason_subset _ _ (by decide) hctx
    · simp only [ht, Bool.false_eq_true, not_false_eq_true, if_neg]
      exact hctx
  by_cases htr : ctx3.close_reason_truthy = true
  · right
    simp only [htr, if_pos]
    exact ⟨trivial, evts, ctx3.close_reasons, rfl, hev, truthy_ne_nil ctx3 htr,
      hctx3⟩
  · left
    simp only [htr, Bool.false_eq_true, not_false_eq_true, if_neg]
    exact ⟨trivial, hev⟩

/-- Shared reduction: a case-dropped element leaves everything alone. -/
lemma processElement_case_dropped {V : Type} (cfg : IMConfig V)
    (st : IMState) (value : V)
    (h : IterManager.chain_case_processors cfg (cfg.context_processor value)
      = true) :
    IterManager.processElement cfg st value = ([], st, false) := by
  simp [IterManager.processElement, h]

lemma processElement_classify {V : Type} (cfg : IMConfig V) (st : IMState)
    (value : V)
    (h0 : (cfg.context_processor value).close_reasons = []) :
    ((IterManager.processElement cfg st value).2.2 = false ∧
      yieldsOnly (IterManager.processElement cfg st value).1) ∨
    ((IterManager.processElement cfg st value).2.2 = true ∧
      ∃ ys rs, (IterManager.processElement cfg st value).1
          = ys ++ [IMEvent.beforeFinish rs] ∧ yieldsOnly ys ∧ rs ≠ [] ∧
        ∀ m ∈ rs, m ∈ thresholdMessages) := by
  have hbase : ∀ m ∈ (cfg.context_processor value).close_reasons,
      m ∈ thresholdMessages := by
    rw [h0]
    intro m hm
    simp at hm
  by_cases hc : IterManager.chain_case_processors cfg
      (cfg.context_processor value) = true
  · left
    rw [processElement_case_dropped cfg st value hc]
    exact ⟨rfl, by intro e he; simp at he⟩
  · by_cases hc1 : (IterManager.check_exclude st
        (cfg.context_processor value)).1 = true
    · have hpe : IterManager.processElement cfg st value
          = IterManager.finish_step
              [IMEvent.yielded (IterManager.return_value cfg
                (IterManager.check_exclude st (cfg.context_processor value)).2.1
                (IterManager.check_exclude st (cfg.context_processor value)).2.2).1]
              (IterManager.return_value cfg
                (IterManager.check_exclude st (cfg.context_processor value)).2.1
                (IterManager.check_exclude st (cfg.context_processor value)).2.2).2.1
              (IterManager.return_value cfg
                (IterManager.check_exclude st (cfg.context_processor value)).2.1
                (IterManager.check_exclude st (cfg.context_processor value)).2.2).2.2 := by
        simp [IterManager.processElement, hc, hc1]
      rw [hpe]
      refine finish_step_classify _ _ _ ?_ ?_
      · intro e he
        rw [List.mem_singleton.mp he]
        exact ⟨_, rfl⟩
      · exact return_value_reasons cfg _ _ (check_exclude_reasons st _ hbase)
    · have hpe : IterManager.processElement cfg st value
          = IterManager.finish_step []
              (IterManager.check_exclude st (cfg.context_processor value)).2.1
              (IterManager.check_exclude st (cfg.context_processor value)).2.2 := by
        simp [IterManager.processElement, hc, hc1]
      rw [hpe]
      refine finish_step_classify _ _ _ ?_ ?_
      · intro e he
        simp at he
      · exact check_exclude_reasons st _ hbase

lemma outputsOf_append {V : Type} (a b : List (IMEvent V)) :
    outputsOf (a ++ b) = outputsOf a ++ outputsOf b := by
  simp [outputsOf, List.filterMap_append]

lemma outputsOf_length_yields {V : Type} (ys : List (IMEvent V))
    (h : yieldsOnly ys) : (outputsOf ys).length = ys.length := by
  induction ys with
  | nil => rfl
  | cons e tl ih =>
      obtain ⟨w, rfl⟩ := h e (List.mem_cons_self e tl)
      simp only [outputsOf, List.filterMap_cons, List.length_cons]
      have := ih fun e he => h e (List.mem_cons_of_mem _ he)
      simp only [outputsOf] at this
      simp [this]

lemma pulled_zero {V : Type} (trace : List (IMEvent V)) :
    pulled 0 trace = [] := by
  cases trace with
  | nil => rfl
  | cons e tl => cases e <;> rfl

lemma pulled_yields_le {V : Type} :
    ∀ (ys trace : List (IMEvent V)) (k : Nat), yieldsOnly ys →
      k ≤ ys.length → pulled k (ys ++ trace) = ys.take k := by
  intro ys
  induction ys with
  | nil =>
      intro trace k _ hk
      have hk0 : k = 0 := by simpa using hk
      subst hk0
      simp [pulled_zero]
  | cons e tl ih =>
      intro trace k hy hk
      obtain ⟨w, rfl⟩ := hy _ (List.mem_cons_self e tl)
      cases k with
      | zero => rfl
      | succ k =>
          simp only [List.cons_append, pulled, List.append_eq,
            List.take_succ_cons]
          rw [ih trace k (fun e he => hy e (List.mem_cons_of_mem _ he))
            (by simpa using hk)]

lemma pulled_yields_ge {V : Type} :
    ∀ (ys trace : List (IMEvent V)) (k : Nat), yieldsOnly ys →
      ys.length ≤ k → pulled k (ys ++ trace) = ys ++ pulled (k - ys.length) trace := by
  intro ys
  induction ys with
  | nil => intro trace k _ _; simp
  | cons e tl ih =>
      intro trace k hy hk
      obtain ⟨w, rfl⟩ := hy _ (List.mem_cons_self e tl)
      cases k with
      | zero => simp at hk
      | succ k =>
          simp only [List.cons_append, pulled, List.append_eq,
            List.length_cons]
          rw [ih trace k (fun e he => hy e (List.mem_cons_of_mem _ he))
            (by simpa using hk)]
          have harith : k + 1 - (tl.length + 1) = k - tl.length := by omega
          rw [harith]

lemma run_pulled_no_finish {V : Type} (cfg : IMConfig V)
    (h0 : ∀ v, (cfg.context_processor v).close_reasons = []) :
    ∀ (prim : List V) (st : IMState) (k : Nat),
      k ≤ (outputsOf (IterManager.run cfg st prim).1).length →
      ∀ r, IMEvent.beforeFinish r ∉ pulled k (IterManager.run cfg st prim).1 := by
  intro prim
  induction prim with
  | nil =>
      intro st k hk r
      simp only [IterManager.run, outputsOf, List.filterMap_nil,
        List.length_nil, Nat.le_zero] at hk
      intro hmem
      rw [hk, pulled_zero] at hmem
      simp at hmem
  | cons v rest ih =>
      intro st k hk r hmem
      rcases processElement_classify cfg st v (h0 v) with
        ⟨hstop, hys⟩ | ⟨hstop, ys, rs, hevts, hys, _, _⟩
      · have hrun1 : (IterManager.run cfg st (v :: rest)).1
            = (IterManager.processElement cfg st v).1
              ++ (IterManager.run cfg
                  (IterManager.processElement cfg st v).2.1 rest).1 := by
          rw [IterManager.run]
          simp [hstop]
        rw [hrun1] at hk hmem
        by_cases hkl : k ≤ (IterManager.processElement cfg st v).1.length
        · rw [pulled_yields_le _ _ k hys hkl] at hmem
          obtain ⟨w, hw⟩ := hys _ (List.take_subset k _ hmem)
          exact IMEvent.noConfusion hw
        · push_neg at hkl
          rw [pulled_yields_ge _ _ k hys (Nat.le_of_lt hkl)] at hmem
          rcases List.mem_append.mp hmem with hmem | hmem
          · obtain ⟨w, hw⟩ := hys _ hmem
            exact IMEvent.noConfusion hw
          · rw [outputsOf_append, List.length_append,
              outputsOf_length_yields _ hys] at hk
            exact ih (IterManager.processElement cfg st v).2.1
              (k - (IterManager.processElement cfg st v).1.length)
              (by omega) r hmem
      · have hrun1 : (IterManager.run cfg st (v :: rest)).1
            = (IterManager.processElement cfg st v).1 := by
          rw [IterManager.run]
          simp [hstop]
        rw [hrun1, hevts] at hk hmem
        rw [outputsOf_append, List.length_append,
          outputsOf_length_yields ys hys] at hk
        have hbf : (outputsOf ([IMEvent.beforeFinish rs] : List (IMEvent V))).length
            = 0 := rfl
        rw [hbf, Nat.add_zero] at hk
        rw [pulled_yields_le ys _ k hys hk] at hmem
        obtain ⟨w, hw⟩ := hys _ (List.take_subset k ys hmem)
        exact IMEvent.noConfusion hw

lemma run_finish_reasons {V : Type} (cfg : IMConfig V)
    (h0 : ∀ v, (cfg.context_processor v).close_reasons = []) :
    ∀ (prim : List V) (st : IMState) (r : List String),
      IMEvent.beforeFinish r ∈ (IterManager.run cfg st prim).1 →
      r ≠ [] ∧ ∀ m ∈ r, m ∈ thresholdMessages := by
  intro prim
  induction prim with
  | nil =>
      intro st r hmem
      simp [IterManager.run] at hmem
  | cons v rest ih =>
      intro st r hmem
      rcases processElement_classify cfg st v (h0 v) with
        ⟨hstop, hys⟩ | ⟨hstop, ys, rs, hevts, hys, hrs, hmsg⟩
      · have hrun1 : (IterManager.run cfg st (v :: rest)).1
            = (IterManager.processElement cfg st v).1
              ++ (IterManager.run cfg
                  (IterManager.processElement cfg st v).2.1 rest).1 := by
          rw [IterManager.run]
          simp [hstop]
        rw [hrun1] at hmem
        rcases List.mem_append.mp hmem with hmem | hmem
        · obtain ⟨w, hw⟩ := hys _ hmem
          exact absurd hw (by intro h; exact IMEvent.noConfusion h)
        · exact ih _ r hmem
      · have hrun1 : (IterManager.run cfg st (v :: rest)).1
            = (IterManager.processElement cfg st v).1 := by
          rw [IterManager.run]
          simp [hstop]
        rw [hrun1, hevts] at hmem
        rcases List.mem_append.mp hmem with hmem | hmem
        · obtain ⟨w, hw⟩ := hys _ hmem
          exact absurd hw (by intro h; exact IMEvent.noConfusion h)
        · have : IMEvent.beforeFinish r = IMEvent.beforeFinish rs :=
            List.mem_singleton.mp hmem
          cases this
          exact ⟨hrs, hmsg⟩

/-- C7: over any configuration whose context builder starts contexts with an
empty close-reason list (as the source's `Context.__init__` does), a
consumer pulling only the first `k` available values executes no
`before_finish` event — the generator suspends at the `k`-th yield and the
hook call (which only ever follows a latched close reason, as the last event
of a finished pass) never runs; and every `before_finish` event of the full
trace carries a nonempty close-reason list made of the four counter-threshold
messages, i.e. the hook runs only on a counter-triggered stop. -/
theorem abandonment_no_finish {V : Type} (cfg : IMConfig V) (prim : List V)
    (k : Nat)
    (h0 : ∀ v, (cfg.context_processor v).close_reasons = [])
    (hk : k ≤ (outputsOf (IterManager.run cfg (IMState.make cfg) prim).1).length) :
    (∀ r, IMEvent.beforeFinish r
      ∉ pulled k (IterManager.run cfg (IMState.make cfg) prim).1) ∧
    (∀ r, IMEvent.beforeFinish r ∈ (IterManager.run cfg (IMState.make cfg) prim).1 →
      r ≠ [] ∧ ∀ m ∈ r, m ∈ thresholdMessages) :=
  ⟨fun r => run_pulled_no_finish cfg h0 prim (IMState.make cfg) k hk r,
   fun r hr => run_finish_reasons cfg h0 prim (IMState.make cfg) r hr⟩

/-- The C7 witness configuration: iteration limit `2`, nothing else. -/
def cfgC7 : IMConfig Nat :=
  { exclude_iterator := [], exclude_default := 0,
    max_iterations := some 2, max_exclude_matches := none,
    max_total_excluded := none, max_returned_values := none,
    context_processor := fun v => ⟨v, v, []⟩,
    case_processors := [],
    return_value_processor := fun ctx => ctx.value }

/-- C7 witness: on `cfgC7` over `[1, 2, 3]` (whose full trace yields twice
and then stops), pulling one value executes no before-finish event. -/
theorem abandonment_no_finish_witness :
    IMEvent.beforeFinish []
      ∉ pulled 1 (IterManager.run cfgC7 (IMState.make cfgC7) [1, 2, 3]).1 :=
  (abandonment_no_finish cfgC7 [1, 2, 3] 1 (fun _ => rfl) (by decide)).1 []

/-! ## C1: exclusion correctness under descending keys -/

/-- The configuration of claim C1: an exclude sequence, no thresholds, no
case predicates, the default projector, and a context builder deriving the
exclusion key via `keyOf` (the source's default is `keyOf = id`). -/
def cfgC1 {V : Type} (keyOf : V → Nat) (E : List Nat) : IMConfig V :=
  { exclude_iterator := E, exclude_default := 0,
    max_iterations := none, max_exclude_matches := none,
    max_total_excluded := none, max_returned_values := none,
    context_processor := fun v => ⟨v, keyOf v, []⟩,
    case_processors := [],
    return_value_processor := fun ctx => ctx.value }

/-- The cursor holding the not-yet-matched exclude suffix `E` (completed
iff `E` is exhausted), as reached during a run. -/
def mkCk (E : List Nat) (d : Nat) : ExcludeCheck Nat :=
  match E with
  | [] => ⟨d, true, [], d⟩
  | e :: es => ⟨e, false, es, d⟩

lemma make_eq_mkCk (E : List Nat) (d : Nat) :
    ExcludeCheck.make E d = mkCk E d := by
  cases E <;> rfl

lemma check_next_mkCk_nil (d k : Nat) :
    (mkCk [] d).check_next k = (false, mkCk [] d) := rfl

lemma check_next_mkCk_cons (e : Nat) (es : List Nat) (d k : Nat) :
    (mkCk (e :: es) d).check_next k
      = if k = e then (true, mkCk es d) else (false, mkCk (e :: es) d) := by
  by_cases hk : k = e
  · subst hk
    cases es <;>
      simp [mkCk, ExcludeCheck.check_next, ExcludeCheck.yield_next]
  · simp [mkCk, ExcludeCheck.check_next, hk]

/-- State with cursor `ck` and every counter disabled (no thresholds). -/
def stNL (ck : ExcludeCheck Nat) : IMState :=
  ⟨ck, disCounter, disCounter, disCounter, disCounter⟩

lemma processElement_noLimits {V : Type} (keyOf : V → Nat) (E0 : List Nat)
    (ck : ExcludeCheck Nat) (v : V) :
    IterManager.processElement (cfgC1 keyOf E0) (stNL ck) v
      = (if (ck.check_next (keyOf v)).1 then ([] : List (IMEvent V))
         else [IMEvent.yielded v],
         stNL (ck.check_next (keyOf v)).2, false) := by
  by_cases hm : (ck.check_next (keyOf v)).1 = true
  · simp [IterManager.processElement, IterManager.finish_step, cfgC1, stNL,
      IterManager.chain_case_processors, IterManager.check_exclude,
      IterManager.return_value, CounterWithThreshold.add,
      CounterWithThreshold.drop, CtxR.set_close_reason,
      CtxR.close_reason_truthy, disCounter, hm]
  · simp [IterManager.processElement, IterManager.finish_step, cfgC1, stNL,
      IterManager.chain_case_processors, IterManager.check_exclude,
      IterManager.return_value, CounterWithThreshold.add,
      CounterWithThreshold.drop, CtxR.set_close_reason,
      CtxR.close_reason_truthy, disCounter, hm]

lemma run_noLimits_cons {V : Type} (keyOf : V → Nat) (E0 : List Nat)
    (ck : ExcludeCheck Nat) (v : V) (rest : List V) :
    outputsOf (IterManager.run (cfgC1 keyOf E0) (stNL ck) (v :: rest)).1
      = (if (ck.check_next (keyOf v)).1 then [] else [v])
        ++ outputsOf (IterManager.run (cfgC1 keyOf E0)
            (stNL (ck.check_next (keyOf v)).2) rest).1 := by
  by_cases hm : (ck.check_next (keyOf v)).1 = true
  · rw [IterManager.run]
    simp [processElement_noLimits keyOf E0 ck v, hm, outputsOf_append,
      outputsOf]
  · rw [IterManager.run]
    simp [processElement_noLimits keyOf E0 ck v, hm, outputsOf_append,
      outputsOf]

lemma exclusion_main {V : Type} (keyOf : V → Nat) (E0 : List Nat) :
    ∀ (prim : List V) (E : List Nat), E.Pairwise (· > ·) →
      (prim.map keyOf).Pairwise (· > ·) →
      (∀ e ∈ E, e ∈ prim.map keyOf) →
      outputsOf (IterManager.run (cfgC1 keyOf E0) (stNL (mkCk E 0)) prim).1
        = prim.filter (fun v => !(E.contains (keyOf v))) := by
  intro prim
  induction prim with
  | nil =>
      intro E hE hP hsub
      simp [IterManager.run, outputsOf]
  | cons p ps ih =>
      intro E hE hP hsub
      rw [run_noLimits_cons]
      rw [List.map_cons, List.pairwise_cons] at hP
      obtain ⟨hgt, hP'⟩ := hP
      cases E with
      | nil =>
          rw [check_next_mkCk_nil]
          simp only [if_neg (by simp : ¬((false, mkCk [] 0).1 = true))]
          rw [ih [] List.Pairwise.nil hP' (by intro e he; simp at he)]
          simp [List.filter_cons]
      | cons e es =>
          rw [check_next_mkCk_cons]
          rw [List.pairwise_cons] at hE
          obtain ⟨hEgt, hE'⟩ := hE
          by_cases hk : keyOf p = e
          · rw [if_pos hk]
            have hsub' : ∀ x ∈ es, x ∈ ps.map keyOf := by
              intro x hx
              have hx1 : x ∈ (p :: ps).map keyOf :=
                hsub x (List.mem_cons_of_mem e hx)
              rw [List.map_cons, List.mem_cons] at hx1
              rcases hx1 with hx1 | hx1
              · exfalso
                have h1 : e > x := hEgt x hx
                omega
              · exact hx1
            simp only
            rw [ih es hE' hP' hsub']
            have hcp : (e :: es).contains (keyOf p) = true := by
              rw [hk]
              simp
            rw [List.filter_cons]
            simp only [hcp, Bool.not_true, Bool.false_eq_true, if_neg,
              not_false_eq_true]
            refine List.filter_congr ?_
            intro a ha
            have hlt : keyOf a < keyOf p := by
              have : keyOf a ∈ ps.map keyOf := List.mem_map_of_mem keyOf ha
              exact hgt (keyOf a) this
            have hne : keyOf a ≠ e := by omega
            have : (e :: es).contains (keyOf a) = es.contains (keyOf a) := by
              simp [List.contains_cons, hne]
            rw [this]
          · rw [if_neg hk]
            have hep : e ∈ ps.map keyOf := by
              have h1 : e ∈ (p :: ps).map keyOf :=
                hsub e (List.mem_cons_self e es)
              rw [List.map_cons, List.mem_cons] at h1
              rcases h1 with h1 | h1
              · exact absurd h1.symm hk
              · exact h1
            have helt : e < keyOf p := hgt e hep
            have hpE : keyOf p ∉ (e :: es) := by
              intro hmem
              rcases List.mem_cons.mp hmem with h1 | h1
              · exact hk h1
              · have : e > keyOf p := hEgt (keyOf p) h1
                omega
            have hsub' : ∀ x ∈ (e :: es), x ∈ ps.map keyOf := by
              intro x hx
              have hx1 : x ∈ (p :: ps).map keyOf := hsub x hx
              rw [List.map_cons, List.mem_cons] at hx1
              rcases hx1 with hx1 | hx1
              · exact absurd (hx1 ▸ hx) hpE
              · exact hx1
            simp only
            rw [ih (e :: es) (List.pairwise_cons.mpr ⟨hEgt, hE'⟩) hP' hsub']
            have hcp : (e :: es).contains (keyOf p) = false := by
              simpa using hpE
            rw [List.filter_cons]
            simp only [hcp, Bool.not_false]
            rfl

/-- C1: with a strictly descending exclude key sequence `E`, a primary
sequence whose derived keys are strictly descending and include every key of
`E`, and an `IterManager` with no thresholds, no case predicates and the
default projector, the values yielded are exactly the primary elements whose
keys are not in `E`, in their original relative order. -/
theorem exclusion_correctness {V : Type} (keyOf : V → Nat) (prim : List V)
    (E : List Nat) (hE : E.Pairwise (· > ·))
    (hP : (prim.map keyOf).Pairwise (· > ·))
    (hsub : ∀ e ∈ E, e ∈ prim.map keyOf) :
    outputsOf (IterManager.run (cfgC1 keyOf E)
        (IMState.make (cfgC1 keyOf E)) prim).1
      = prim.filter (fun v => !(E.contains (keyOf v))) := by
  have hmk : IMState.make (cfgC1 keyOf E) = stNL (mkCk E 0) := by
    simp [IMState.make, cfgC1, stNL, make_eq_mkCk, disCounter,
      CounterWithThreshold.make, Threshold.ofBasis, Threshold.toBool]
  rw [hmk]
  exact exclusion_main keyOf E prim E hE hP hsub

/-- C1 witness: keys `[5, 4, 3, 2, 1]` against exclude sequence `[4, 2]`
yield `[5, 3, 1]`. -/
theorem exclusion_correctness_witness :
    ([4, 2] : List Nat).Pairwise (· > ·) ∧
    outputsOf (IterManager.run (cfgC1 (fun v : Nat => v) [4, 2])
        (IMState.make (cfgC1 (fun v : Nat => v) [4, 2])) [5, 4, 3, 2, 1]).1
      = [5, 4, 3, 2, 1].filter
          (fun v => !(([4, 2] : List Nat).contains ((fun v : Nat => v) v))) :=
  ⟨by decide,
   exclusion_correctness (fun v : Nat => v) [5, 4, 3, 2, 1] [4, 2]
     (by decide) (by decide) (by decide)⟩

end ScrapyNtk
